import Mathlib

set_option maxRecDepth 8192

/-!
Shallow embedding of `src/src/lib.rs` (module `laminations`): an algebra for
eventually-periodic n-ary digit expansions of reals in the unit interval.

Modelling conventions:
* Rust `u128`/`u8` integers are modelled as `Nat` (all claims here concern
  digit/rational arithmetic, not wrap-around behaviour).
* Rust `&str` is modelled as `List Char`; `str::split` on a `char` separator
  is `splitChar`, `str::split("")` (the empty pattern, used for bases below
  ten) yields an empty piece, each character, and an empty piece, which is
  `splitEmptyPattern`.
* `Result<T, String>` is modelled as `Except ParseError T`; the two `format!`
  messages of the source become the two constructors of `ParseError`
  (`tooManySeparators` for "`{s}` contains more than one underscore",
  `notNumerical` for "{s}: `{digit}` is not numerical").
* `num::rational::Ratio::new` reduces a fraction to lowest terms; it is
  modelled by `ratNew`, returning the reduced numerator/denominator pair.
  `Ratio`'s `Ord` instance compares by value, modelled by `ratioCmp` via
  cross multiplication (sound for the positive denominators produced here).
-/

namespace Laminations

/-- The two error payloads produced by `parse_digit_parts` in the source
(`format!("`{}` contains more than one underscore", s)` and
`format!("{}: `{}` is not numerical", s, digit)`). -/
inductive ParseError where
  | tooManySeparators (input : List Char)
  | notNumerical (input : List Char) (token : List Char)
deriving DecidableEq

/-- The `UnitFraction` struct of the source: the lazy quadruple
(exact value, exact length, repeating value, repeating length).
`deriving DecidableEq` mirrors the derived (field-wise) `PartialEq`. -/
structure UnitFraction where
  exact_num : Nat
  exact_len : Nat
  repeating_num : Nat
  repeating_len : Nat
deriving DecidableEq

/-- `UnitFraction::new`. -/
def UnitFraction.new (exact_num exact_len repeating_num repeating_len : Nat) :
    UnitFraction :=
  ⟨exact_num, exact_len, repeating_num, repeating_len⟩

/-- Rust `str::split(sep)` on a one-character pattern: the pieces of the
string between occurrences of `sep`, empty pieces included. -/
def splitChar (sep : Char) : List Char → List (List Char)
  | [] => [[]]
  | c :: cs =>
    match splitChar sep cs with
    | [] => [[]]
    | p :: ps => if c = sep then [] :: p :: ps else (c :: p) :: ps

/-- Rust `str::split("")` (empty pattern): an empty piece, then each
character as a one-character piece, then an empty piece. -/
def splitEmptyPattern (l : List Char) : List (List Char) :=
  [[]] ++ l.map (fun c => [c]) ++ [[]]

/-- The digit tokens of one part, before the non-empty filter: the source
splits on `""` when `base < 10` and on `","` otherwise. -/
def split_tokens (base : Nat) (part : List Char) : List (List Char) :=
  if base < 10 then splitEmptyPattern part else splitChar ',' part

/-- Rust `str::parse::<u8>()`: an optional leading `'+'`, then one or more
ASCII decimal digits, whose value must fit in `u8` (be at most 255). -/
def parseU8 (token : List Char) : Option Nat :=
  let digitChars := match token with
    | '+' :: rest => rest
    | _ => token
  if digitChars = [] then none
  else if digitChars.all (fun c => c.isDigit) then
    let v := digitChars.foldl (fun a c => a * 10 + (c.toNat - '0'.toNat)) 0
    if v ≤ 255 then some v else none
  else none

/-- `Iterator::collect::<Result<Vec<_>, _>>`: map a fallible function over a
list, stopping at the first error. -/
def mapExcept (f : List Char → Except ParseError Nat) :
    List (List Char) → Except ParseError (List Nat)
  | [] => Except.ok []
  | t :: ts =>
    match f t with
    | Except.error e => Except.error e
    | Except.ok v =>
      match mapExcept f ts with
      | Except.error e => Except.error e
      | Except.ok vs => Except.ok (v :: vs)

/-- The `parse_digits` closure inside `parse_digit_parts`: tokenize a part,
drop empty tokens, and parse each token as a `u8`, failing with the
"not numerical" error (which carries the whole input `s`) on a bad token. -/
def parse_digits (s : List Char) (base : Nat) (digits : List Char) :
    Except ParseError (List Nat) :=
  mapExcept
    (fun digit =>
      match parseU8 digit with
      | some v => Except.ok v
      | none => Except.error (ParseError.notNumerical s digit))
    ((split_tokens base digits).filter (fun digit => 0 < digit.length))

/-- `parse_digit_parts`: split on `'_'`, reject more than two parts, then
parse the exact part (`parts[0]`) and the repeating part
(`parts.get(1).unwrap_or("")`). -/
def parse_digit_parts (base : Nat) (s : List Char) :
    Except ParseError (List Nat × List Nat) :=
  if 2 < (splitChar '_' s).length then
    Except.error (ParseError.tooManySeparators s)
  else
    match parse_digits s base ((splitChar '_' s).headD []) with
    | Except.error e => Except.error e
    | Except.ok exact =>
      match parse_digits s base ((splitChar '_' s).getD 1 []) with
      | Except.error e => Except.error e
      | Except.ok repeating => Except.ok (exact, repeating)

/-- `value_from_digits`: read a digit sequence, most significant first, as a
base-`base` integer, via the reverse fold of the source. -/
def value_from_digits (base : Nat) (digits : List Nat) : Nat :=
  (digits.reverse.foldl
    (fun (p : Nat × Nat) digit => (p.1 + digit * p.2, p.2 * base))
    ((0 : Nat), (1 : Nat))).1

/-- `<UnitFraction as UnitNumber>::parse_nary`. -/
def parse_nary (base : Nat) (s : List Char) : Except ParseError UnitFraction :=
  match parse_digit_parts base s with
  | Except.error e => Except.error e
  | Except.ok (exact_digits, repeating_digits) =>
    Except.ok (UnitFraction.new
      (value_from_digits base exact_digits) exact_digits.length
      (value_from_digits base repeating_digits) repeating_digits.length)

/-- `Ratio::<u128>::new`: reduce the fraction to lowest terms (the source
panics on a zero denominator; here the pair is returned unreduced-by-zero,
and the denominator is proved non-zero where the claims need it). -/
def ratNew (numer denom : Nat) : Nat × Nat :=
  let g := Nat.gcd numer denom
  (numer / g, denom / g)

/-- The `get_repeating_denominator` closure of `to_rational`:
`base^repeating_len - 1`, clamped to `1` when that is `0`. -/
def repeating_denominator (base : Nat) (x : UnitFraction) : Nat :=
  let result := base ^ x.repeating_len - 1
  if result = 0 then 1 else result

/-- `<UnitFraction as UnitNumber>::to_rational`, as the reduced
numerator/denominator pair of the `Ratio` it builds. -/
def to_rational (base : Nat) (x : UnitFraction) : Nat × Nat :=
  ratNew (repeating_denominator base x * x.exact_num + x.repeating_num)
    (repeating_denominator base x * base ^ x.exact_len)

/-- `UnitNumber::to_float`, with the `f64` quotient idealized as the exact
rational quotient (the source documents it as a lossy view only). -/
def to_float (base : Nat) (x : UnitFraction) : ℚ :=
  ((to_rational base x).1 : ℚ) / ((to_rational base x).2 : ℚ)

/-- `Ratio`'s by-value comparison, for pairs with positive denominators:
`a.1/a.2` versus `b.1/b.2` by cross multiplication. -/
def ratioCmp (a b : Nat × Nat) : Ordering :=
  compare (a.1 * b.2) (b.1 * a.2)

/-- `<UnitFraction as Ord>::cmp` of the source: it compares
`self.to_rational(2)` with `other.to_rational(2)` — the base is the
literal `2`, whatever base the operands were parsed with. -/
def UnitFraction.cmp (x y : UnitFraction) : Ordering :=
  ratioCmp (to_rational 2 x) (to_rational 2 y)

/-- `LaminationAlgebra` (instantiated at `UnitFraction`, the
`DefaultAlgebra` of the source): just a base. -/
structure LaminationAlgebra where
  base : Nat

/-- `LaminationAlgebra::new`: stores the base unchecked. -/
def LaminationAlgebra.new (base : Nat) : LaminationAlgebra :=
  ⟨base⟩

/-- `LaminationAlgebra::parse`: delegate to `parse_nary` at the stored base. -/
def LaminationAlgebra.parse (a : LaminationAlgebra) (s : List Char) :
    Except ParseError UnitFraction :=
  parse_nary a.base s

/-- Modelled from the spec: the canonical rational of §4.2, which the
source's `to_rational` omits to wrap — `numerator / denominator` "MUST be
normalized into `[0, 1)` by reducing `numerator` modulo `denominator`",
then kept in lowest terms. -/
def canonical_rational (base : Nat) (x : UnitFraction) : Nat × Nat :=
  ratNew
    ((repeating_denominator base x * x.exact_num + x.repeating_num)
      % (repeating_denominator base x * base ^ x.exact_len))
    (repeating_denominator base x * base ^ x.exact_len)

/-- Modelled from the spec: `map_forward` (§4.2), absent from
`src/src/lib.rs` — "multiply the numerator by `base`, keep the same
denominator, then re-canonicalize (reduce and wrap mod 1 via the same
construction path)", applied to the canonical rational of `x`. -/
def map_forward (base : Nat) (x : UnitFraction) : Nat × Nat :=
  ratNew ((canonical_rational base x).1 * base % (canonical_rational base x).2)
    (canonical_rational base x).2

instance {ε α : Type} [DecidableEq ε] [DecidableEq α] :
    DecidableEq (Except ε α) := fun a b =>
  match a, b with
  | Except.error e1, Except.error e2 =>
    if h : e1 = e2 then Decidable.isTrue (by rw [h])
    else Decidable.isFalse (fun hc => h (by cases hc; rfl))
  | Except.error _, Except.ok _ => Decidable.isFalse (fun hc => by cases hc)
  | Except.ok _, Except.error _ => Decidable.isFalse (fun hc => by cases hc)
  | Except.ok v1, Except.ok v2 =>
    if h : v1 = v2 then Decidable.isTrue (by rw [h])
    else Decidable.isFalse (fun hc => h (by cases hc; rfl))

/-! ### Basic facts about `ratNew` (the `Ratio::new` reduction) -/

theorem ratNew_cross (n d : Nat) : (ratNew n d).1 * d = n * (ratNew n d).2 := by
  show n / Nat.gcd n d * d = n * (d / Nat.gcd n d)
  rcases Nat.eq_zero_or_pos (Nat.gcd n d) with h0 | hpos
  · have hn : n = 0 := Nat.eq_zero_of_gcd_eq_zero_left h0
    have hd : d = 0 := Nat.eq_zero_of_gcd_eq_zero_right h0
    simp [hn, hd]
  · apply Nat.eq_of_mul_eq_mul_right hpos
    rw [show n / Nat.gcd n d * d * Nat.gcd n d
          = n / Nat.gcd n d * Nat.gcd n d * d by ring,
      Nat.div_mul_cancel (Nat.gcd_dvd_left n d),
      show n * (d / Nat.gcd n d) * Nat.gcd n d
          = n * (d / Nat.gcd n d * Nat.gcd n d) by ring,
      Nat.div_mul_cancel (Nat.gcd_dvd_right n d)]

theorem ratNew_denom_pos (n d : Nat) (hd : 0 < d) : 0 < (ratNew n d).2 := by
  show 0 < d / Nat.gcd n d
  have hg : 0 < Nat.gcd n d := Nat.gcd_pos_of_pos_right n hd
  exact Nat.div_pos (Nat.le_of_dvd hd (Nat.gcd_dvd_right n d)) hg

theorem ratNew_coprime (n d : Nat) (hd : 0 < d) :
    Nat.Coprime (ratNew n d).1 (ratNew n d).2 := by
  show Nat.Coprime (n / Nat.gcd n d) (d / Nat.gcd n d)
  exact Nat.coprime_div_gcd_div_gcd (Nat.gcd_pos_of_pos_right n hd)

theorem ratNew_num_lt (n d : Nat) (h : n < d) :
    (ratNew n d).1 < (ratNew n d).2 := by
  show n / Nat.gcd n d < d / Nat.gcd n d
  exact Nat.div_lt_div_of_lt_of_dvd (Nat.gcd_dvd_right n d) h

/-! ### Facts about the repeating denominator and `to_rational` -/

theorem repeating_denominator_pos (b : Nat) (x : UnitFraction) :
    0 < repeating_denominator b x := by
  show 0 < if b ^ x.repeating_len - 1 = 0 then 1 else b ^ x.repeating_len - 1
  split
  · exact Nat.one_pos
  · omega

theorem repeating_denominator_eq (b : Nat) (x : UnitFraction) (hb : 2 ≤ b) :
    repeating_denominator b x
      = if x.repeating_len = 0 then 1 else b ^ x.repeating_len - 1 := by
  show (if b ^ x.repeating_len - 1 = 0 then 1 else b ^ x.repeating_len - 1) = _
  rcases Nat.eq_zero_or_pos x.repeating_len with hk | hk
  · simp [hk]
  · have hkne : x.repeating_len ≠ 0 := Nat.pos_iff_ne_zero.mp hk
    have hble : b ≤ b ^ x.repeating_len := Nat.le_self_pow hkne b
    have hne : ¬(b ^ x.repeating_len - 1 = 0) := by omega
    simp [hne, hkne]

theorem to_rational_denom_pos (b : Nat) (x : UnitFraction) (hb : 2 ≤ b) :
    0 < (to_rational b x).2 := by
  unfold to_rational
  exact ratNew_denom_pos _ _
    (Nat.mul_pos (repeating_denominator_pos b x) (Nat.pos_pow_of_pos _ (by omega)))

/-! ### Parser lemmas -/

theorem filter_tokens_zero (b : Nat) :
    (split_tokens b ['0']).filter (fun d => 0 < d.length) = [['0']] := by
  unfold split_tokens
  by_cases hb : b < 10
  · rw [if_pos hb]; decide
  · rw [if_neg hb]; decide

theorem filter_tokens_nil (b : Nat) :
    (split_tokens b []).filter (fun d => 0 < d.length) = [] := by
  unfold split_tokens
  by_cases hb : b < 10
  · rw [if_pos hb]; decide
  · rw [if_neg hb]; decide

theorem parse_digits_zero (s : List Char) (b : Nat) :
    parse_digits s b ['0'] = Except.ok [0] := by
  unfold parse_digits
  rw [filter_tokens_zero]
  rfl

theorem parse_digits_nil (s : List Char) (b : Nat) :
    parse_digits s b [] = Except.ok [] := by
  unfold parse_digits
  rw [filter_tokens_nil]
  rfl

theorem parse_digit_parts_zero (b : Nat) :
    parse_digit_parts b ['0'] = Except.ok ([0], []) := by
  unfold parse_digit_parts
  rw [if_neg (by decide : ¬ 2 < (splitChar '_' ['0']).length)]
  rw [show (splitChar '_' ['0']).headD [] = ['0'] from rfl,
    show (splitChar '_' ['0']).getD 1 [] = [] from rfl,
    parse_digits_zero, parse_digits_nil]

theorem parse_nary_ok (b : Nat) (s : List Char) (ds rs : List Nat)
    (h : parse_digit_parts b s = Except.ok (ds, rs)) :
    parse_nary b s = Except.ok (UnitFraction.new
      (value_from_digits b ds) ds.length (value_from_digits b rs) rs.length) := by
  unfold parse_nary
  rw [h]

theorem splitChar_ne_nil (sep : Char) (l : List Char) : splitChar sep l ≠ [] := by
  induction l with
  | nil => simp [splitChar]
  | cons c cs ih =>
    cases h : splitChar sep cs with
    | nil => exact absurd h ih
    | cons p ps =>
      simp only [splitChar, h]
      split <;> simp

theorem splitChar_length (sep : Char) (l : List Char) :
    (splitChar sep l).length = l.count sep + 1 := by
  induction l with
  | nil => simp [splitChar]
  | cons c cs ih =>
    cases h : splitChar sep cs with
    | nil => exact absurd h (splitChar_ne_nil sep cs)
    | cons p ps =>
      rw [h] at ih
      simp only [List.length_cons] at ih
      by_cases hc : c = sep
      · subst hc
        simp only [splitChar, h, if_true]
        simp only [List.length_cons, List.count_cons_self]
        omega
      · have hcs : ¬ sep = c := fun hh => hc hh.symm
        simp only [splitChar, h]
        rw [if_neg hc]
        simp only [List.length_cons, List.count_cons, beq_iff_eq, if_neg hc,
          if_neg hcs]
        omega

theorem splitChar_cons_self (sep : Char) (t : List Char) :
    splitChar sep (sep :: t) = [] :: splitChar sep t := by
  cases h : splitChar sep t with
  | nil => exact absurd h (splitChar_ne_nil sep t)
  | cons p ps => simp [splitChar, h]

theorem mapExcept_error (f : List Char → Except ParseError Nat)
    (ts : List (List Char)) (e : ParseError)
    (h : mapExcept f ts = Except.error e) : ∃ t ∈ ts, f t = Except.error e := by
  induction ts with
  | nil => exact absurd h (by simp [mapExcept])
  | cons t ts ih =>
    unfold mapExcept at h
    cases hf : f t with
    | error e1 =>
      rw [hf] at h
      simp only at h
      cases h
      exact ⟨t, by simp, hf⟩
    | ok v =>
      rw [hf] at h
      cases hm : mapExcept f ts with
      | error e2 =>
        rw [hm] at h
        simp only at h
        cases h
        obtain ⟨t1, ht1, hft1⟩ := ih hm
        exact ⟨t1, by simp [ht1], hft1⟩
      | ok vs =>
        rw [hm] at h
        exact absurd h (by simp)

theorem parse_digits_error_shape (s : List Char) (b : Nat) (d : List Char)
    (e : ParseError) (h : parse_digits s b d = Except.error e) :
    ∃ t, e = ParseError.notNumerical s t := by
  unfold parse_digits at h
  obtain ⟨t, _, hft⟩ := mapExcept_error _ _ _ h
  cases hu : parseU8 t with
  | none => rw [hu] at hft; exact ⟨t, by cases hft; rfl⟩
  | some v => rw [hu] at hft; exact absurd hft (by simp)

/-! ### The claims -/

/-- C1: the claim fails on the code. In base 3 the expansions `"_102"` and
`"1_021"` denote the same real number — their base-3 rationals are both
`11/26` — yet they parse to quadruples that differ field-wise, so under the
derived (structural) `PartialEq` of `UnitFraction`,
`parse("_102") == parse("1_021")` is false, contradicting the claim and the
repository's own `simplifies` test. -/
theorem c1_canonical_equivalence_fails :
    parse_nary 3 "_102".toList = Except.ok (UnitFraction.new 0 0 11 3)
    ∧ parse_nary 3 "1_021".toList = Except.ok (UnitFraction.new 1 1 7 3)
    ∧ UnitFraction.new 0 0 11 3 ≠ UnitFraction.new 1 1 7 3
    ∧ to_rational 3 (UnitFraction.new 0 0 11 3) = (11, 26)
    ∧ to_rational 3 (UnitFraction.new 1 1 7 3) = (11, 26) := by
  refine ⟨by decide, by decide, by decide, by decide, by decide⟩

/-- C2: the claim fails on the code. First, trichotomy fails: in base 2,
`"_1"` parses to `⟨0,0,1,1⟩` and `"1_1"` to `⟨1,1,1,1⟩`; `cmp` (which
compares the base-2 rationals) returns `eq` on them, so neither `x < y` nor
`x > y` holds, yet `x == y` is also false under the derived structural
equality — none of the three relations holds. Second, the order is not
determined by the canonical rational of the operands: `cmp` hardcodes base
2, so for the base-3 values `"_102"` (11/26) and `"2_1"` (5/6) the canonical
base-3 comparison is `lt` while `cmp` answers `gt`. -/
theorem c2_ordering_not_total_by_canonical_value :
    parse_nary 2 "_1".toList = Except.ok (UnitFraction.new 0 0 1 1)
    ∧ parse_nary 2 "1_1".toList = Except.ok (UnitFraction.new 1 1 1 1)
    ∧ UnitFraction.cmp (UnitFraction.new 0 0 1 1) (UnitFraction.new 1 1 1 1)
        = Ordering.eq
    ∧ UnitFraction.new 0 0 1 1 ≠ UnitFraction.new 1 1 1 1
    ∧ parse_nary 3 "_102".toList = Except.ok (UnitFraction.new 0 0 11 3)
    ∧ parse_nary 3 "2_1".toList = Except.ok (UnitFraction.new 2 1 1 1)
    ∧ ratioCmp (to_rational 3 (UnitFraction.new 0 0 11 3))
        (to_rational 3 (UnitFraction.new 2 1 1 1)) = Ordering.lt
    ∧ UnitFraction.cmp (UnitFraction.new 0 0 11 3) (UnitFraction.new 2 1 1 1)
        = Ordering.gt := by
  refine ⟨by decide, by decide, by decide, by decide, by decide, by decide,
    by decide, by decide⟩

/-- C3: the claim fails on the code. `parse("_2")` in base 3 yields the
quadruple `⟨0,0,2,1⟩`, and `to_rational 3` of it is `Ratio::new(2, 2)`,
i.e. the reduced pair `(1, 1)` — the value 1, not the claimed normalized
value 0: the numerator is never reduced modulo the denominator, so the
result lies outside `[0, 1)`. -/
theorem c3_to_rational_not_normalized :
    parse_nary 3 "_2".toList = Except.ok (UnitFraction.new 0 0 2 1)
    ∧ to_rational 3 (UnitFraction.new 0 0 2 1) = (1, 1)
    ∧ ¬ (to_rational 3 (UnitFraction.new 0 0 2 1)).1
        < (to_rational 3 (UnitFraction.new 0 0 2 1)).2 := by
  refine ⟨by decide, by decide, by decide⟩

/-- C6: the claim fails on the code. In base 3 the single digit `"5"` is a
numeric token whose value 5 is ≥ 3, yet `parse_digit_parts` accepts it
(only `str::parse::<u8>` failures are rejected, e.g. the non-numeric
token `"o"`); so it is not true that every accepted digit token is
strictly less than the base. -/
theorem c6_digit_range_not_checked :
    parse_digit_parts 3 "5".toList = Except.ok ([5], [])
    ∧ parse_nary 3 "5".toList = Except.ok (UnitFraction.new 5 1 0 0)
    ∧ parse_digit_parts 3 "o".toList
        = Except.error (ParseError.notNumerical "o".toList "o".toList) := by
  refine ⟨by decide, by decide, by decide⟩

/-- C8: confirmed. For every base and input: `parse_digit_parts` fails with
the syntax error (`tooManySeparators`) exactly when the input holds more
than one `'_'`; with no separator the repeating sequence of a successful
parse is empty, and with a leading separator the exact sequence is empty
(concrete instances cover an input with no separator, an empty exact part,
and an empty repeating part); and empty digit tokens from consecutive
delimiters are skipped — `"1,,2"` in base 12 parses to `[1, 2]`, not to a
list containing a zero. -/
theorem c8_separator_and_empty_token_handling :
    ∀ (b : Nat) (s : List Char),
    (parse_digit_parts b s = Except.error (ParseError.tooManySeparators s)
      ↔ 1 < s.count '_')
    ∧ (s.count '_' = 0 →
        ∀ p, parse_digit_parts b s = Except.ok p → p.2 = ([] : List Nat))
    ∧ (∀ (t : List Char) (p : List Nat × List Nat),
        parse_digit_parts b ('_' :: t) = Except.ok p → p.1 = ([] : List Nat))
    ∧ parse_digit_parts 3 "102".toList = Except.ok ([1, 0, 2], [])
    ∧ parse_digit_parts 3 "_102".toList = Except.ok ([], [1, 0, 2])
    ∧ parse_digit_parts 3 "102_".toList = Except.ok ([1, 0, 2], [])
    ∧ parse_digit_parts 12 "1,,2".toList = Except.ok ([1, 2], []) := by
  intro b s
  refine ⟨⟨?_, ?_⟩, ?_, ?_, by decide, by decide, by decide, by decide⟩
  · intro h
    by_cases hl : 2 < (splitChar '_' s).length
    · rw [splitChar_length] at hl
      omega
    · exfalso
      unfold parse_digit_parts at h
      rw [if_neg hl] at h
      cases h1 : parse_digits s b ((splitChar '_' s).headD []) with
      | error e =>
        obtain ⟨t, ht⟩ := parse_digits_error_shape s b _ e h1
        subst ht
        simp only [h1] at h
        exact Except.noConfusion h (fun he => ParseError.noConfusion he)
      | ok ex =>
        simp only [h1] at h
        cases h2 : parse_digits s b ((splitChar '_' s).getD 1 []) with
        | error e =>
          obtain ⟨t, ht⟩ := parse_digits_error_shape s b _ e h2
          subst ht
          simp only [h2] at h
          exact Except.noConfusion h (fun he => ParseError.noConfusion he)
        | ok rp =>
          simp only [h2] at h
          exact Except.noConfusion h
  · intro h
    unfold parse_digit_parts
    rw [if_pos (by rw [splitChar_length]; omega)]
  · intro h0 p hp
    have hl : (splitChar '_' s).length = 1 := by rw [splitChar_length, h0]
    have hnot : ¬ 2 < (splitChar '_' s).length := by omega
    have hgd : (splitChar '_' s).getD 1 [] = [] :=
      List.getD_eq_default _ _ (by omega)
    unfold parse_digit_parts at hp
    rw [if_neg hnot] at hp
    split at hp
    · exact Except.noConfusion hp
    · simp only [hgd, parse_digits_nil] at hp
      injection hp with h2
      rw [← h2]
  · intro t p hp
    unfold parse_digit_parts at hp
    by_cases hc : 2 < (splitChar '_' ('_' :: t)).length
    · rw [if_pos hc] at hp
      exact Except.noConfusion hp
    · rw [if_neg hc] at hp
      rw [splitChar_cons_self] at hp
      simp only [List.headD_cons, parse_digits_nil] at hp
      split at hp
      · exact Except.noConfusion hp
      · injection hp with h2
        rw [← h2]

/-- C8 witness: the syntax-error characterization applied at base 3 to the
concrete input `"1_2_3"`, which holds two underscores. -/
theorem c8_separator_witness :
    parse_digit_parts 3 "1_2_3".toList
      = Except.error (ParseError.tooManySeparators "1_2_3".toList) :=
  (c8_separator_and_empty_token_handling 3 "1_2_3".toList).1.mpr (by decide)

/-- C5: confirmed. For base `b ≥ 2`, `to_rational` of any quadruple is
exactly the reduction of `n / d` where `d0 = b^k − 1` for `k > 0` and
`d0 = 1` for `k = 0`, `d = d0 * b^m`, `n = d0 * e + r`: the reduced pair
equals `ratNew n d`, is in lowest terms, positive-denominator, and denotes
the value `n / d` (cross-multiplication identity). -/
theorem c5_to_rational_construction (b : Nat) (x : UnitFraction) (hb : 2 ≤ b) :
    to_rational b x
      = ratNew
          ((if x.repeating_len = 0 then 1 else b ^ x.repeating_len - 1)
            * x.exact_num + x.repeating_num)
          ((if x.repeating_len = 0 then 1 else b ^ x.repeating_len - 1)
            * b ^ x.exact_len)
    ∧ Nat.Coprime (to_rational b x).1 (to_rational b x).2
    ∧ (to_rational b x).1
        * ((if x.repeating_len = 0 then 1 else b ^ x.repeating_len - 1)
            * b ^ x.exact_len)
      = ((if x.repeating_len = 0 then 1 else b ^ x.repeating_len - 1)
          * x.exact_num + x.repeating_num) * (to_rational b x).2
    ∧ 0 < (to_rational b x).2 := by
  have hrd := repeating_denominator_eq b x hb
  have hdpos : 0 < repeating_denominator b x * b ^ x.exact_len :=
    Nat.mul_pos (repeating_denominator_pos b x)
      (Nat.pos_pow_of_pos _ (by omega))
  refine ⟨?_, ?_, ?_, to_rational_denom_pos b x hb⟩
  · unfold to_rational
    rw [hrd]
  · unfold to_rational
    exact ratNew_coprime _ _ hdpos
  · rw [← hrd]
    exact ratNew_cross _ _

/-- C5 witness: the construction instantiated at base 3 and the parse of
`"1_100"` (the quadruple `⟨1,1,9,3⟩`, canonical value 35/78). -/
theorem c5_witness :
    (2 ≤ 3)
    ∧ Nat.Coprime (to_rational 3 (UnitFraction.new 1 1 9 3)).1
        (to_rational 3 (UnitFraction.new 1 1 9 3)).2
    ∧ 0 < (to_rational 3 (UnitFraction.new 1 1 9 3)).2 :=
  ⟨by decide,
    (c5_to_rational_construction 3 (UnitFraction.new 1 1 9 3) (by decide)).2.1,
    (c5_to_rational_construction 3 (UnitFraction.new 1 1 9 3) (by decide)).2.2.2⟩

/-- C7: confirmed. When a string parses to a purely exact digit sequence
`ds` (empty repeating part) in base `b ≥ 2`, `parse_nary` yields the
quadruple `⟨value_from_digits b ds, |ds|, 0, 0⟩` and its `to_rational`
is exactly the reduced fraction `value_from_digits b ds / b^|ds|`. -/
theorem c7_exact_round_trip (b : Nat) (s : List Char) (ds : List Nat)
    (hb : 2 ≤ b) (h : parse_digit_parts b s = Except.ok (ds, [])) :
    parse_nary b s
      = Except.ok (UnitFraction.new (value_from_digits b ds) ds.length 0 0)
    ∧ to_rational b (UnitFraction.new (value_from_digits b ds) ds.length 0 0)
        = ratNew (value_from_digits b ds) (b ^ ds.length)
    ∧ (to_rational b (UnitFraction.new (value_from_digits b ds) ds.length 0 0)).1
        * b ^ ds.length
      = value_from_digits b ds
        * (to_rational b
            (UnitFraction.new (value_from_digits b ds) ds.length 0 0)).2
    ∧ Nat.Coprime
        (to_rational b
          (UnitFraction.new (value_from_digits b ds) ds.length 0 0)).1
        (to_rational b
          (UnitFraction.new (value_from_digits b ds) ds.length 0 0)).2
    ∧ 0 < (to_rational b
          (UnitFraction.new (value_from_digits b ds) ds.length 0 0)).2 := by
  have hpow : 0 < b ^ ds.length := Nat.pos_pow_of_pos _ (by omega)
  have h2 : to_rational b (UnitFraction.new (value_from_digits b ds) ds.length 0 0)
      = ratNew (value_from_digits b ds) (b ^ ds.length) := by
    simp [to_rational, repeating_denominator, UnitFraction.new, pow_zero]
  refine ⟨?_, h2, ?_, ?_, ?_⟩
  · exact parse_nary_ok b s ds [] h
  · rw [h2]
    exact ratNew_cross _ _
  · rw [h2]
    exact ratNew_coprime _ _ hpow
  · rw [h2]
    exact ratNew_denom_pos _ _ hpow

/-- C7 witness: the round trip at base 3 on the concrete exact string
`"100"`, whose value 9 over 27 reduces to 1/3. -/
theorem c7_witness :
    (2 ≤ 3)
    ∧ parse_digit_parts 3 "100".toList = Except.ok ([1, 0, 0], [])
    ∧ parse_nary 3 "100".toList = Except.ok (UnitFraction.new 9 3 0 0) :=
  ⟨by decide, by decide,
    (c7_exact_round_trip 3 "100".toList [1, 0, 0] (by decide) (by decide)).1⟩

/-- C9: confirmed. For base `b ≥ 2` and every quadruple: the repeating
denominator is clamped to 1 when the repeating length is 0 and is always
positive, `b^m ≥ 1`, so the denominator handed to `Ratio::new` is never
zero; consequently `to_rational` (at the instance base and at the
hard-coded base 2 used by `cmp`) has a positive denominator and the
`to_float` quotient is exact division by a non-zero denominator. -/
theorem c9_downstream_totality (b : Nat) (x : UnitFraction) (hb : 2 ≤ b) :
    (x.repeating_len = 0 → repeating_denominator b x = 1)
    ∧ 0 < repeating_denominator b x
    ∧ 0 < b ^ x.exact_len
    ∧ repeating_denominator b x * b ^ x.exact_len ≠ 0
    ∧ 0 < (to_rational b x).2
    ∧ 0 < (to_rational 2 x).2
    ∧ to_float b x * ((to_rational b x).2 : ℚ) = ((to_rational b x).1 : ℚ) := by
  refine ⟨?_, repeating_denominator_pos b x, Nat.pos_pow_of_pos _ (by omega),
    ?_, to_rational_denom_pos b x hb, to_rational_denom_pos 2 x (le_refl 2), ?_⟩
  · intro hk
    rw [repeating_denominator_eq b x hb, if_pos hk]
  · have := Nat.mul_pos (repeating_denominator_pos b x)
      (Nat.pos_pow_of_pos x.exact_len (show 0 < b by omega))
    omega
  · have hq : 0 < (to_rational b x).2 := to_rational_denom_pos b x hb
    have hne : ((to_rational b x).2 : ℚ) ≠ 0 := by
      exact_mod_cast Nat.pos_iff_ne_zero.mp hq
    unfold to_float
    exact div_mul_cancel₀ _ hne

/-- C9 witness: totality instantiated at base 3 on the quadruple
`⟨1,1,9,3⟩` parsed from `"1_100"`. -/
theorem c9_witness :
    (2 ≤ 3) ∧ 0 < (to_rational 3 (UnitFraction.new 1 1 9 3)).2 :=
  ⟨by decide,
    (c9_downstream_totality 3 (UnitFraction.new 1 1 9 3) (by decide)).2.2.2.2.1⟩

/-- C4: confirmed against the spec model (the operation is absent from
`src/src/lib.rs`). For base `b ≥ 2`, `map_forward` of any `UnitFraction`
is the reduction of (canonical numerator × base) mod the canonical
denominator, over the same denominator: it is in lowest terms, lies in
`[0, 1)` (numerator strictly below denominator), denotes exactly the
shifted value (cross-multiplication identity), and is expressible purely
in terms of the canonical rational — two values with the same canonical
rational have the same image. -/
theorem c4_map_forward_shift (b : Nat) (x : UnitFraction) (hb : 2 ≤ b) :
    map_forward b x
      = ratNew ((canonical_rational b x).1 * b % (canonical_rational b x).2)
          (canonical_rational b x).2
    ∧ Nat.Coprime (map_forward b x).1 (map_forward b x).2
    ∧ (map_forward b x).1 < (map_forward b x).2
    ∧ (map_forward b x).1 * (canonical_rational b x).2
      = ((canonical_rational b x).1 * b % (canonical_rational b x).2)
          * (map_forward b x).2
    ∧ ∀ y : UnitFraction, canonical_rational b y = canonical_rational b x →
        map_forward b y = map_forward b x := by
  have hdpos : 0 < repeating_denominator b x * b ^ x.exact_len :=
    Nat.mul_pos (repeating_denominator_pos b x)
      (Nat.pos_pow_of_pos _ (by omega))
  have hq : 0 < (canonical_rational b x).2 := by
    unfold canonical_rational
    exact ratNew_denom_pos _ _ hdpos
  have hmod : (canonical_rational b x).1 * b % (canonical_rational b x).2
      < (canonical_rational b x).2 := Nat.mod_lt _ hq
  refine ⟨rfl, ?_, ?_, ?_, ?_⟩
  · exact ratNew_coprime _ _ hq
  · exact ratNew_num_lt _ _ hmod
  · exact ratNew_cross _ _
  · intro y hy
    unfold map_forward
    rw [hy]

/-- C4 witness: the shift at base 3 on `⟨1,1,9,3⟩` (the parse of
`"1_100"`, canonical value 35/78): the image is reduced and lies in
`[0, 1)` (it evaluates to 9/26, the canonical value of `"_100"`). -/
theorem c4_witness :
    (2 ≤ 3)
    ∧ Nat.Coprime (map_forward 3 (UnitFraction.new 1 1 9 3)).1
        (map_forward 3 (UnitFraction.new 1 1 9 3)).2
    ∧ (map_forward 3 (UnitFraction.new 1 1 9 3)).1
        < (map_forward 3 (UnitFraction.new 1 1 9 3)).2 :=
  ⟨by decide,
    (c4_map_forward_shift 3 (UnitFraction.new 1 1 9 3) (by decide)).2.1,
    (c4_map_forward_shift 3 (UnitFraction.new 1 1 9 3) (by decide)).2.2.1⟩

/-- C10: confirmed. `LaminationAlgebra::new` stores any base unchecked —
including 0 and 1 — and for every base whatsoever, parsing the well-formed
input `"0"` succeeds and yields `UnitFraction::new(0, 1, 0, 0)`: no
operation of the public interface rejects a base value. -/
theorem c10_every_base_accepted :
    ∀ b : Nat, (LaminationAlgebra.new b).base = b
      ∧ (LaminationAlgebra.new b).parse "0".toList
          = Except.ok (UnitFraction.new 0 1 0 0) := by
  intro b
  refine ⟨rfl, ?_⟩
  show parse_nary b ['0'] = Except.ok (UnitFraction.new 0 1 0 0)
  exact parse_nary_ok b ['0'] [0] [] (parse_digit_parts_zero b)

end Laminations
